import Mathlib

set_option autoImplicit false

/-!
Verification development for the labeled algebraic engine of the linopy
repository.  The repository ships only documentation notebooks
(`create-a-model.ipynb`, `creating-variables.ipynb`, and the constraint
notebook); the implementation of `Model`, `add_variables`,
`LinearExpression`, `add_constraints`, `add_objective`, `linexpr` and
`to_matrix_view` is not part of the source tree.  The definitions below are
therefore modelled from the specification (sections 3, 4 and 6), with the
notebooks as the authority wherever they pin concrete behaviour (for
example, the first variable label of a fresh model is `0`, as stated in
`creating-variables.ipynb`).

Outer dimensions of labeled arrays are flattened row-major: a labeled array
is represented by its flat size together with the list of dimension sizes
(the shape).  Bounds are extended rationals, the default bounds being minus
and plus infinity.  The sentinel variable label is `-1`.
-/

/-- Modelled from the spec: comparison sign of a constraint, one of ≤, ≥, =. -/
inductive Sign where
  | LE
  | GE
  | EQ
  deriving DecidableEq, Repr, Inhabited

/-- Modelled from the spec: a variable bound, either a finite rational or one of
the infinite defaults of `add_variables`. -/
inductive Bound where
  | negInf
  | fin (q : ℚ)
  | posInf
  deriving DecidableEq, Repr, Inhabited

/-- Modelled from the spec: order on bounds, used for the `lower ≤ upper`
validation of `add_variables`. -/
def Bound.le : Bound → Bound → Bool
  | .negInf, _ => true
  | _, .posInf => true
  | .fin a, .fin b => decide (a ≤ b)
  | .posInf, .fin _ => false
  | .posInf, .negInf => false
  | .fin _, .negInf => false

/-- Modelled from the spec: the synchronous error kinds of section 7 that the
modelled fragment can raise. -/
inductive LinopyError where
  | MissingCoordinates
  | UnnamedDimension
  | DimensionMismatch
  | BoundsInvalid
  | UnknownVariable
  | NotZeroDimensional
  deriving DecidableEq, Repr

/-- Modelled from the spec: one entry of the `coords` tuple passed to
`add_variables`: a 1-D index with an optional dimension name and a size. -/
structure Coord where
  name : Option String
  size : ℕ
  deriving DecidableEq, Repr

/-- Modelled from the spec: a bound argument of `add_variables`, either a
scalar or an unlabeled dense array (notebook: a numpy array). -/
inductive BoundInput where
  | scalar (b : Bound)
  | unlabeled (data : List ℚ)
  deriving DecidableEq, Repr

/-- Modelled from the spec: a Variable, i.e. a labeled array of integer
variable labels together with the per-position bounds of its family; the
flat label list has length `shape.prod`. -/
structure Variable where
  shape : List ℕ
  labels : List ℤ
  lower : List Bound
  upper : List Bound
  deriving DecidableEq, Repr

/-- Modelled from the spec: a LinearExpression over one flattened outer
dimension: at outer position `p` the expression is the sum over the term
axis of `coeff · x(label)` plus `const p`.  Term lists are kept rectangular
by sentinel padding (label `-1`, coefficient `0`). -/
@[ext]
structure LinearExpression where
  size : ℕ
  terms : ℕ → List (ℤ × ℚ)
  const : ℕ → ℚ

/-- Modelled from the spec: a registered Constraint: constraint labels,
materialized lhs term rows, per-position sign and right-hand side. -/
structure Constraint where
  conLabels : List ℤ
  lhsTerms : List (List (ℤ × ℚ))
  sign : List Sign
  rhs : List ℚ
  deriving DecidableEq, Repr

/-- Modelled from the spec: the Model container: the `force_dim_names` flag,
the two label counters of the LabelAllocator, the variable and constraint
registries and the optional objective. -/
structure Model where
  force_dim_names : Bool
  nextVarLabel : ℕ
  nextConLabel : ℕ
  vars : List Variable
  constraints : List Constraint
  objective : Option LinearExpression

/-- Modelled from the spec: a fresh `Model()`; counters start at 0 (the first
issued variable label is 0 per `creating-variables.ipynb`). -/
def freshModel : Model :=
  ⟨false, 0, 0, [], [], none⟩

/-- Modelled from the spec: a fresh `Model(force_dim_names=True)`. -/
def freshModelForced : Model :=
  ⟨true, 0, 0, [], [], none⟩

/-- Modelled from the spec: shape and dimension-name resolution of
`add_variables` (section 4.2): with `coords` given the shape comes from the
coords; without `coords`, scalar bounds give shape `()` and an unlabeled
array bound fails with `MissingCoordinates`. -/
def resolveShape (lower upper : BoundInput) (coords : Option (List Coord)) :
    Except LinopyError (List ℕ × List (Option String)) :=
  match coords with
  | some cs => .ok (cs.map (fun c => c.size), cs.map (fun c => c.name))
  | none =>
    match lower, upper with
    | .scalar _, .scalar _ => .ok ([], [])
    | _, _ => .error .MissingCoordinates

/-- Modelled from the spec: normalization of one bound argument to a dense
per-position bound list of the family size. -/
def resolveBound (b : BoundInput) (n : ℕ) : Except LinopyError (List Bound) :=
  match b with
  | .scalar q => .ok (List.replicate n q)
  | .unlabeled data =>
    if data.length = n then .ok (data.map Bound.fin) else .error .DimensionMismatch

/-- Modelled from the spec: `Model.add_variables(lower, upper, coords)`
(section 4.2): resolve the shape, reject anonymous dimensions under
`force_dim_names`, normalize the bounds, validate `lower ≤ upper`, then
allocate `prod(shape)` contiguous labels from the counter and commit the
family.  Validation happens before the allocator advances, so a failing
call commits nothing. -/
def addVariables (m : Model) (lower upper : BoundInput) (coords : Option (List Coord)) :
    Except LinopyError (Model × Variable) :=
  match resolveShape lower upper coords with
  | .error e => .error e
  | .ok (shape, dims) =>
    if m.force_dim_names && dims.any (fun d => d.isNone) then .error .UnnamedDimension
    else
      match resolveBound lower shape.prod, resolveBound upper shape.prod with
      | .error e, _ => .error e
      | .ok _, .error e => .error e
      | .ok lo, .ok up =>
        if (lo.zip up).all (fun p => Bound.le p.1 p.2) then
          .ok ({ m with nextVarLabel := m.nextVarLabel + shape.prod,
                        vars := m.vars ++
                          [⟨shape,
                            (List.range shape.prod).map
                              (fun i => ((m.nextVarLabel + i : ℕ) : ℤ)), lo, up⟩] },
               ⟨shape,
                (List.range shape.prod).map (fun i => ((m.nextVarLabel + i : ℕ) : ℤ)),
                lo, up⟩)
        else .error .BoundsInvalid

/-- Modelled from the spec: the family shape requested by an `add_variables`
call: the sizes of `coords` when given, the scalar shape `()` otherwise. -/
def requestedShape (coords : Option (List Coord)) : List ℕ :=
  match coords with
  | some cs => cs.map (fun c => c.size)
  | none => []

/-- Modelled from the spec: allocator invariant of a Model: every issued
variable label is nonnegative and below the counter, and all issued
variable labels are pairwise distinct. -/
def LabelInv (m : Model) : Prop :=
  (∀ v ∈ m.vars, ∀ l ∈ v.labels, 0 ≤ l ∧ l < (m.nextVarLabel : ℤ)) ∧
  ((m.vars.map Variable.labels).flatten).Nodup

/-- Modelled from the spec: constraint-label allocator invariant, the
counterpart of `LabelInv` for the constraint registry. -/
def ConLabelInv (m : Model) : Prop :=
  (∀ c ∈ m.constraints, ∀ l ∈ c.conLabels, 0 ≤ l ∧ l < (m.nextConLabel : ℤ)) ∧
  ((m.constraints.map Constraint.conLabels).flatten).Nodup

/-- Modelled from the spec: the label of the first variable created by
`add_variables` on a fresh Model (99 is an unreachable fallback). -/
def firstVarLabel : ℤ :=
  match addVariables freshModel (.scalar .negInf) (.scalar .posInf) none with
  | .ok (_, v) => v.labels.headD 99
  | .error _ => 99

/-- Modelled from the spec: a row of sentinel terms (label `-1`,
coefficient `0`) used as padding and as shift fill. -/
def sentinelRow (T : ℕ) : List (ℤ × ℚ) :=
  List.replicate T (-1, 0)

/-- Modelled from the spec: the length of the term axis of an expression. -/
def termCount (e : LinearExpression) : ℕ :=
  (e.terms 0).length

/-- Modelled from the spec: rectangularity of an expression: every outer
position carries the same number of terms. -/
def Rect (e : LinearExpression) : Prop :=
  ∀ p, p < e.size → (e.terms p).length = termCount e

/-- Modelled from the spec: broadcast read of the term rows of an
expression: a size-one (scalar) expression is replicated to any position. -/
def readT (e : LinearExpression) (p : ℕ) : List (ℤ × ℚ) :=
  if e.size ≤ 1 then e.terms 0 else e.terms p

/-- Modelled from the spec: broadcast read of the constant of an expression. -/
def readC (e : LinearExpression) (p : ℕ) : ℚ :=
  if e.size ≤ 1 then e.const 0 else e.const p

/-- Modelled from the spec: addition of expressions (section 4.3): outer
dimensions broadcast, term axes concatenate, constants add pointwise. -/
def addE (e1 e2 : LinearExpression) : LinearExpression :=
  ⟨max e1.size e2.size, fun p => readT e1 p ++ readT e2 p,
   fun p => readC e1 p + readC e2 p⟩

/-- Modelled from the spec: a coefficient array (a labeled float array of
the given flat size; size one means a scalar). -/
structure CoefArr where
  size : ℕ
  val : ℕ → ℚ

/-- Modelled from the spec: a scalar coefficient. -/
def sclCoef (q : ℚ) : CoefArr :=
  ⟨1, fun _ => q⟩

/-- Modelled from the spec: broadcast read of a coefficient array. -/
def readCo (c : CoefArr) (p : ℕ) : ℚ :=
  if c.size ≤ 1 then c.val 0 else c.val p

/-- Modelled from the spec: broadcast read of the label array of a
Variable; out-of-range positions fall back to the sentinel. -/
def readLab (v : Variable) (p : ℕ) : ℤ :=
  if v.labels.length ≤ 1 then v.labels.getD 0 (-1) else v.labels.getD p (-1)

/-- Modelled from the spec: coefficient times Variable, the one-term
expression with coefficients broadcast against the labels (section 4.3). -/
def cvMul (c : CoefArr) (v : Variable) : LinearExpression :=
  ⟨max c.size v.labels.length, fun p => [(readLab v p, readCo c p)], fun _ => 0⟩

/-- Modelled from the spec: a Variable used as an expression, one term with
coefficient one. -/
def varE (v : Variable) : LinearExpression :=
  cvMul (sclCoef 1) v

/-- Modelled from the spec: the broadcast outer size of one (coefficient,
variable) pair of `Model.linexpr`. -/
def pairSize (pr : CoefArr × Variable) : ℕ :=
  max pr.1.size pr.2.labels.length

/-- Modelled from the spec: the broadcast outer size of a list of
(coefficient, variable) pairs. -/
def bcastSize (pairs : List (CoefArr × Variable)) : ℕ :=
  (pairs.map pairSize).foldl max 0

/-- Modelled from the spec: the term row produced at one outer position by
stacking the pairs of `Model.linexpr`. -/
def mapRow (pairs : List (CoefArr × Variable)) (p : ℕ) : List (ℤ × ℚ) :=
  pairs.map (fun pr => (readLab pr.2 p, readCo pr.1 p))

/-- Modelled from the spec: `Model.linexpr((c1,v1), (c2,v2), …)`: all
coefficient and label arrays are aligned to the broadcast shape and stacked
along a fresh term axis in one pass. -/
def linexprPairs (pairs : List (CoefArr × Variable)) : LinearExpression :=
  ⟨bcastSize pairs, fun p => mapRow pairs p, fun _ => 0⟩

/-- Modelled from the spec: the empty expression (used only as the base of
the iterative builder on an empty list of pairs). -/
def zeroE : LinearExpression :=
  ⟨1, fun _ => [], fun _ => 0⟩

/-- Modelled from the spec: the iterative arithmetic build
`c1*v1 + c2*v2 + …`, folding expression addition from the left. -/
def iterLinexpr (pairs : List (CoefArr × Variable)) : LinearExpression :=
  match pairs with
  | [] => zeroE
  | h :: t => t.foldl (fun acc pr => addE acc (cvMul pr.1 pr.2)) (cvMul h.1 h.2)

/-- Modelled from the spec: shift along the outer dimension by `k`
(section 4.3): a label-preserving roll with fill, positions falling outside
assume sentinel label `-1`, coefficient `0` and constant `0`; the shape is
kept. -/
def shiftE (e : LinearExpression) (k : ℤ) : LinearExpression :=
  ⟨e.size,
   fun p => if 0 ≤ (p : ℤ) - k ∧ (p : ℤ) - k < (e.size : ℤ)
            then e.terms ((p : ℤ) - k).toNat else sentinelRow (termCount e),
   fun p => if 0 ≤ (p : ℤ) - k ∧ (p : ℤ) - k < (e.size : ℤ)
            then e.const ((p : ℤ) - k).toNat else 0⟩

/-- Modelled from the spec: an AnonymousConstraint: an lhs expression with
zeroed constant, a per-position sign and a right-hand-side array, over the
broadcast outer size. -/
structure AnonymousConstraint where
  size : ℕ
  lhs : LinearExpression
  sign : ℕ → Sign
  rhs : ℕ → ℚ

/-- Modelled from the spec: an expression with its constant zeroed out, as
comparison does before the constant surfaces into the rhs (section 4.4). -/
def zeroConstE (e : LinearExpression) : LinearExpression :=
  ⟨e.size, e.terms, fun _ => 0⟩

/-- Modelled from the spec: comparison of an expression with a constant
array (section 4.4): the sign is recorded verbatim, the effective rhs is
the right operand minus the lhs constant, and the lhs constant is zeroed. -/
def compareE (e : LinearExpression) (s : Sign) (r : CoefArr) : AnonymousConstraint :=
  ⟨max e.size r.size, zeroConstE e, fun _ => s, fun p => readCo r p - readC e p⟩

/-- Modelled from the spec: validation of section 4.5 step 1: every
non-sentinel variable label of the lhs must belong to the model. -/
def validLabels (m : Model) (ac : AnonymousConstraint) : Bool :=
  (List.range ac.size).all (fun p =>
    (readT ac.lhs p).all (fun t =>
      decide (t.1 = -1 ∨ (0 ≤ t.1 ∧ t.1 < (m.nextVarLabel : ℤ)))))

/-- Modelled from the spec: constraint registration (section 4.5): validate
the labels, allocate `size` contiguous constraint labels, materialize and
store the Constraint. -/
def registerConstraint (m : Model) (ac : AnonymousConstraint) :
    Except LinopyError (Model × Constraint) :=
  if validLabels m ac then
    let n := ac.size
    let c : Constraint :=
      ⟨(List.range n).map (fun i => ((m.nextConLabel + i : ℕ) : ℤ)),
       (List.range n).map (fun p => readT ac.lhs p),
       (List.range n).map (fun p => ac.sign p),
       (List.range n).map (fun p => ac.rhs p)⟩
    .ok ({ m with nextConLabel := m.nextConLabel + n,
                  constraints := m.constraints ++ [c] }, c)
  else .error .UnknownVariable

/-- Modelled from the spec: `add_constraints` called with an already built
AnonymousConstraint. -/
def addConstraintsAnon (m : Model) (ac : AnonymousConstraint) :
    Except LinopyError (Model × Constraint) :=
  registerConstraint m ac

/-- Modelled from the spec: `add_constraints` called with the separate
triple (lhs, sign, rhs); the triple is normalized to an
AnonymousConstraint following section 4.4 (rhs minus lhs constant, lhs
constant zeroed, sign verbatim) and then registered. -/
def addConstraintsTriple (m : Model) (lhs : LinearExpression) (s : Sign) (r : CoefArr) :
    Except LinopyError (Model × Constraint) :=
  registerConstraint m
    ⟨max lhs.size r.size, zeroConstE lhs, fun _ => s, fun p => readCo r p - readC lhs p⟩

/-- Modelled from the spec: an AnonymousScalarConstraint as returned by a
constraint rule at one coordinate point. -/
structure AnonymousScalarConstraint where
  terms : List (ℤ × ℚ)
  sign : Sign
  rhs : ℚ

/-- Modelled from the spec: pad a term list with sentinel terms up to the
common term count `T`. -/
def padTo (T : ℕ) (l : List (ℤ × ℚ)) : List (ℤ × ℚ) :=
  l ++ sentinelRow (T - l.length)

/-- Modelled from the spec: the common term count of a rule evaluation: the
maximum number of terms over all coordinate points. -/
def ruleMaxTerms {ι : Type} (f : ι → AnonymousScalarConstraint) (coords : List ι) : ℕ :=
  (coords.map (fun pt => (f pt).terms.length)).foldl max 0

/-- Modelled from the spec: the rule evaluator for constraints: evaluate the
rule at every coordinate point in order, pad the term rows with sentinel to
the common term count and assemble one AnonymousConstraint recording the
sign and rhs delivered at each point. -/
def ruleToAnon {ι : Type} [Inhabited ι] (f : ι → AnonymousScalarConstraint)
    (coords : List ι) : AnonymousConstraint :=
  ⟨coords.length,
   ⟨coords.length,
    fun p => padTo (ruleMaxTerms f coords) (f (coords.getD p default)).terms,
    fun _ => 0⟩,
   fun p => (f (coords.getD p default)).sign,
   fun p => (f (coords.getD p default)).rhs⟩

/-- Modelled from the spec: `add_constraints` called with a rule and
coords. -/
def addConstraintsRule {ι : Type} [Inhabited ι] (m : Model)
    (f : ι → AnonymousScalarConstraint) (coords : List ι) :
    Except LinopyError (Model × Constraint) :=
  registerConstraint m (ruleToAnon f coords)

/-- Modelled from the spec: `add_objective` (section 4.6): the expression
must be zero-dimensional at the outer level. -/
def addObjective (m : Model) (e : LinearExpression) : Except LinopyError Model :=
  if e.size = 1 then .ok { m with objective := some e } else .error .NotZeroDimensional

/-- Modelled from the spec: all live variable labels of the model in
allocation order. -/
def allVarLabels (m : Model) : List ℤ :=
  (m.vars.map Variable.labels).flatten

/-- Modelled from the spec: the lower bounds aligned with `allVarLabels`. -/
def allLower (m : Model) : List Bound :=
  (m.vars.map Variable.lower).flatten

/-- Modelled from the spec: the upper bounds aligned with `allVarLabels`. -/
def allUpper (m : Model) : List Bound :=
  (m.vars.map Variable.upper).flatten

/-- Modelled from the spec: the triplet list of one constraint: each
non-sentinel term at each outer coordinate contributes
`(constraint label, variable label, coefficient)`. -/
def conTriplets (c : Constraint) : List (ℤ × ℤ × ℚ) :=
  ((c.conLabels.zip c.lhsTerms).map
    (fun pr => (pr.2.filter (fun t => decide (t.1 ≠ -1))).map
      (fun t => (pr.1, t.1, t.2)))).flatten

/-- Modelled from the spec: the solver-facing matrix bundle of section 4.7. -/
structure MatrixView where
  varLabels : List ℤ
  lower : List Bound
  upper : List Bound
  conLabels : List ℤ
  rhs : List ℚ
  sign : List Sign
  triplets : List (ℤ × ℤ × ℚ)
  c : List ℚ
  deriving DecidableEq, Repr, Inhabited

/-- Modelled from the spec: the flattened term list of an expression. -/
def flatTerms (e : LinearExpression) : List (ℤ × ℚ) :=
  ((List.range e.size).map e.terms).flatten

/-- Modelled from the spec: the objective coefficient vector, indexed by
variable label in allocation order; labels missing from the objective get
0, duplicate labels are summed. -/
def cvec (m : Model) : List ℚ :=
  match m.objective with
  | none => (allVarLabels m).map (fun _ => 0)
  | some e => (allVarLabels m).map (fun l =>
      (((flatTerms e).filter (fun t => decide (t.1 = l))).map (fun t => t.2)).sum)

/-- Modelled from the spec: `Model.to_matrix_view()` (section 4.7). -/
def toMatrixView (m : Model) : MatrixView :=
  ⟨allVarLabels m, allLower m, allUpper m,
   (m.constraints.map Constraint.conLabels).flatten,
   (m.constraints.map Constraint.rhs).flatten,
   (m.constraints.map Constraint.sign).flatten,
   (m.constraints.map conTriplets).flatten,
   cvec m⟩

/-- Modelled from the spec: the dense constraint matrix obtained from the
triplets by iterating constraint labels and variable labels in order and
summing duplicates. -/
def denseA (mv : MatrixView) : List (List ℚ) :=
  mv.conLabels.map (fun r => mv.varLabels.map (fun col =>
    ((mv.triplets.filter (fun t => decide (t.1 = r ∧ t.2.1 = col))).map
      (fun t => t.2.2)).sum))

/-- Modelled from the spec: satisfaction of a lower bound by a value. -/
def loSatB : Bound → ℚ → Bool
  | .negInf, _ => true
  | .fin q, x => decide (q ≤ x)
  | .posInf, _ => false

/-- Modelled from the spec: satisfaction of an upper bound by a value. -/
def upSatB : Bound → ℚ → Bool
  | .negInf, _ => false
  | .fin q, x => decide (x ≤ q)
  | .posInf, _ => true

/-- Modelled from the spec: satisfaction of one comparison sign. -/
def signOkB : Sign → ℚ → ℚ → Bool
  | .LE, a, b => decide (a ≤ b)
  | .GE, a, b => decide (b ≤ a)
  | .EQ, a, b => decide (a = b)

/-- Modelled from the spec: the value of one constraint row of the matrix
view under an assignment of values to variable labels. -/
def rowVal (mv : MatrixView) (r : ℤ) (z : ℤ → ℚ) : ℚ :=
  ((mv.triplets.filter (fun t => decide (t.1 = r))).map
    (fun t => t.2.2 * z t.2.1)).sum

/-- Modelled from the spec: feasibility of an assignment for a matrix view:
all variable bounds hold and every constraint row holds with its sign. -/
def satisfies (mv : MatrixView) (z : ℤ → ℚ) : Prop :=
  (∀ pr ∈ mv.varLabels.zip (mv.lower.zip mv.upper),
    loSatB pr.2.1 (z pr.1) = true ∧ upSatB pr.2.2 (z pr.1) = true) ∧
  (∀ pr ∈ mv.conLabels.zip (mv.sign.zip mv.rhs),
    signOkB pr.2.1 (rowVal mv pr.1 z) pr.2.2 = true)

/-- Modelled from the spec: the objective value of an assignment under the
matrix view's coefficient vector. -/
def objVal (mv : MatrixView) (z : ℤ → ℚ) : ℚ :=
  ((mv.varLabels.zip mv.c).map (fun pr => pr.2 * z pr.1)).sum

/-- Modelled from the spec: the S1 pipeline of `create-a-model.ipynb`: two
scalar variables with lower bound 0, the constraints `3x + 7y ≥ 10` and
`5x + 2y ≥ 3`, the objective `x + 2y`, then the matrix view. -/
def s1Result : Except LinopyError MatrixView := do
  let (m1, x) ← addVariables freshModel (.scalar (.fin 0)) (.scalar .posInf) none
  let (m2, y) ← addVariables m1 (.scalar (.fin 0)) (.scalar .posInf) none
  let (m3, _) ← addConstraintsAnon m2
    (compareE (addE (cvMul (sclCoef 3) x) (cvMul (sclCoef 7) y)) .GE (sclCoef 10))
  let (m4, _) ← addConstraintsAnon m3
    (compareE (addE (cvMul (sclCoef 5) x) (cvMul (sclCoef 2) y)) .GE (sclCoef 3))
  let m5 ← addObjective m4 (addE (varE x) (cvMul (sclCoef 2) y))
  pure (toMatrixView m5)

/-- Modelled from the spec: the matrix view produced by the S1 pipeline. -/
def s1mv : MatrixView :=
  match s1Result with
  | .ok mv => mv
  | .error _ => default

/-- Modelled from the spec: the claimed S1 optimum `x = 0`, `y = 10/7` as an
assignment to the variable labels. -/
def s1opt : ℤ → ℚ :=
  fun l => if l = 1 then 10 / 7 else 0

/-- The true optimum of the S1 linear program, `x = 1/29`, `y = 41/29`, as an
assignment to the variable labels. -/
def s1optTrue : ℤ → ℚ :=
  fun l => if l = 0 then 1 / 29 else 41 / 29

/-- A concrete two-position expression with one term per position, used to
exercise the shift roundtrip. -/
def e2shift : LinearExpression :=
  ⟨2, fun p => [(((5 + p : ℕ) : ℤ), 1)], fun _ => 0⟩
/-- C9: calling `add_variables` on any Model with all arguments left at their
defaults (lower `-inf`, upper `+inf`, no coords) succeeds and returns a
zero-dimensional Variable holding exactly one label, with lower bound minus
infinity and upper bound plus infinity. -/
theorem add_variables_defaults (m : Model) :
    addVariables m (.scalar .negInf) (.scalar .posInf) none =
      .ok ({ m with nextVarLabel := m.nextVarLabel + 1,
                    vars := m.vars ++
                      [⟨[], [((m.nextVarLabel : ℕ) : ℤ)], [.negInf], [.posInf]⟩] },
           ⟨[], [((m.nextVarLabel : ℕ) : ℤ)], [.negInf], [.posInf]⟩) := by
  have h1 : List.range 1 = [0] := rfl
  simp [addVariables, resolveShape, resolveBound, Bound.le, h1]

/-- C8: on a Model with `force_dim_names` set, `add_variables` with an
unlabeled array bound and coords whose indexes carry no dimension name
fails with `UnnamedDimension`; since the call returns an error and no
model, no family or labels are committed. -/
theorem add_variables_unnamed_dimension (m : Model) (data : List ℚ) (up : BoundInput)
    (cs : List Coord) (hforce : m.force_dim_names = true)
    (hanon : ∃ c ∈ cs, c.name = none) :
    addVariables m (.unlabeled data) up (some cs) = .error .UnnamedDimension := by
  obtain ⟨c, hc, hname⟩ := hanon
  have hany : cs.any (fun x => x.name.isNone) = true := by
    simp only [List.any_eq_true]
    exact ⟨c, hc, by simp [hname]⟩
  simp only [addVariables, resolveShape]
  have : (cs.map fun c => c.name).any (fun d => d.isNone) = true := by
    simpa [List.any_map, Function.comp] using hany
  simp [hforce, this]

/-- C8 witness: the notebook instance `Model(force_dim_names=True)
.add_variables(lower=np.array([1,2]), coords=(range(2),))` fails with
`UnnamedDimension`. -/
theorem add_variables_unnamed_dimension_witness :
    addVariables freshModelForced (.unlabeled [1, 2]) (.scalar .posInf)
      (some [⟨none, 2⟩]) = .error .UnnamedDimension :=
  add_variables_unnamed_dimension freshModelForced [1, 2] (.scalar .posInf)
    [⟨none, 2⟩] rfl ⟨⟨none, 2⟩, by simp, rfl⟩

/-- Helper: a successful `resolveShape` returns the requested shape. -/
theorem resolveShape_ok (lower upper : BoundInput) (coords : Option (List Coord))
    (s : List ℕ) (d : List (Option String))
    (h : resolveShape lower upper coords = .ok (s, d)) :
    s = requestedShape coords := by
  cases coords with
  | some cs =>
    simp only [resolveShape, Except.ok.injEq, Prod.mk.injEq] at h
    simp [requestedShape, ← h.1]
  | none =>
    cases lower <;> cases upper <;> simp [resolveShape] at h
    simp [requestedShape, ← h.1]

/-- Helper: full characterization of a successful `addVariables` call: the
shape is the requested one, the labels are the contiguous block starting at
the old counter, the counter advances by the family size and the family is
appended; nothing else changes. -/
theorem addVariables_ok_spec (m : Model) (lower upper : BoundInput)
    (coords : Option (List Coord)) (m' : Model) (v : Variable)
    (h : addVariables m lower upper coords = .ok (m', v)) :
    v.shape = requestedShape coords ∧
    v.labels = (List.range v.shape.prod).map (fun i => ((m.nextVarLabel + i : ℕ) : ℤ)) ∧
    m'.nextVarLabel = m.nextVarLabel + v.shape.prod ∧
    m'.nextConLabel = m.nextConLabel ∧
    m'.vars = m.vars ++ [v] ∧
    m'.constraints = m.constraints := by
  unfold addVariables at h
  split at h
  · exact absurd h (by simp)
  next shape dims heq =>
    split at h
    · exact absurd h (by simp)
    · split at h
      · exact absurd h (by simp)
      · exact absurd h (by simp)
      · split at h
        · simp only [Except.ok.injEq, Prod.mk.injEq] at h
          obtain ⟨hm, hv⟩ := h
          subst hm
          subst hv
          have hshape := resolveShape_ok lower upper coords shape dims heq
          exact ⟨hshape, rfl, rfl, rfl, rfl, rfl⟩
        · exact absurd h (by simp)

/-- C2: every successful `add_variables` call returns a Variable of the
requested shape whose labels are the contiguous block
`[next_var_label, next_var_label + prod(shape))`, disjoint from the labels
of every family issued earlier on the same Model. -/
theorem add_variables_shape_contiguous_disjoint (m : Model) (lower upper : BoundInput)
    (coords : Option (List Coord)) (m' : Model) (v : Variable)
    (hinv : LabelInv m)
    (h : addVariables m lower upper coords = .ok (m', v)) :
    v.shape = requestedShape coords ∧
    v.labels = (List.range v.shape.prod).map (fun i => ((m.nextVarLabel + i : ℕ) : ℤ)) ∧
    (∀ w ∈ m.vars, ∀ l ∈ w.labels, l ∉ v.labels) := by
  obtain ⟨hs, hl, -, -, -, -⟩ := addVariables_ok_spec m lower upper coords m' v h
  refine ⟨hs, hl, ?_⟩
  intro w hw l hlw hmem
  have hub := (hinv.1 w hw l hlw).2
  rw [hl] at hmem
  simp only [List.mem_map, List.mem_range] at hmem
  obtain ⟨i, _, hEq⟩ := hmem
  rw [← hEq] at hub
  have : m.nextVarLabel + i < m.nextVarLabel := by exact_mod_cast hub
  omega

/-- C2 witness: a concrete call with three coordinates on a fresh model. -/
theorem add_variables_shape_contiguous_disjoint_witness :
    (⟨[3], [0, 1, 2], List.replicate 3 (.fin 0), List.replicate 3 .posInf⟩ :
      Variable).shape = requestedShape (some [⟨some "t", 3⟩]) ∧
    (⟨[3], [0, 1, 2], List.replicate 3 (.fin 0), List.replicate 3 .posInf⟩ :
      Variable).labels =
      (List.range ([3] : List ℕ).prod).map
        (fun i => ((freshModel.nextVarLabel + i : ℕ) : ℤ)) ∧
    (∀ w ∈ freshModel.vars, ∀ l ∈ w.labels,
      l ∉ (⟨[3], [0, 1, 2], List.replicate 3 (.fin 0), List.replicate 3 .posInf⟩ :
        Variable).labels) :=
  add_variables_shape_contiguous_disjoint freshModel (.scalar (.fin 0)) (.scalar .posInf)
    (some [⟨some "t", 3⟩])
    ⟨false, 3, 0, [⟨[3], [0, 1, 2], List.replicate 3 (.fin 0), List.replicate 3 .posInf⟩],
      [], none⟩
    ⟨[3], [0, 1, 2], List.replicate 3 (.fin 0), List.replicate 3 .posInf⟩
    (by constructor <;> simp [LabelInv, freshModel]) rfl

/-- C3 counterexample: the label of the first variable created by
`add_variables` on a fresh Model is 0, which is not strictly greater than
zero (`creating-variables.ipynb`: one scalar variable with label 0). -/
theorem first_var_label_not_positive : firstVarLabel = 0 ∧ ¬ 0 < firstVarLabel := by
  decide

/-- Helper: full characterization of a successful `registerConstraint`
call. -/
theorem registerConstraint_ok_spec (m : Model) (ac : AnonymousConstraint)
    (m' : Model) (c : Constraint) (h : registerConstraint m ac = .ok (m', c)) :
    c.conLabels = (List.range ac.size).map (fun i => ((m.nextConLabel + i : ℕ) : ℤ)) ∧
    c.lhsTerms = (List.range ac.size).map (fun p => readT ac.lhs p) ∧
    c.sign = (List.range ac.size).map (fun p => ac.sign p) ∧
    c.rhs = (List.range ac.size).map (fun p => ac.rhs p) ∧
    m'.nextConLabel = m.nextConLabel + ac.size ∧
    m'.constraints = m.constraints ++ [c] ∧
    m'.nextVarLabel = m.nextVarLabel ∧
    m'.vars = m.vars := by
  unfold registerConstraint at h
  split at h
  · simp only [Except.ok.injEq, Prod.mk.injEq] at h
    obtain ⟨hm, hc⟩ := h
    subst hm
    subst hc
    exact ⟨rfl, rfl, rfl, rfl, rfl, rfl, rfl, rfl⟩
  · exact absurd h (by simp)

/-- Helper: labels from a contiguous allocation are pairwise distinct. -/
theorem range_labels_nodup (start n : ℕ) :
    ((List.range n).map (fun i => ((start + i : ℕ) : ℤ))).Nodup := by
  refine List.Nodup.map ?_ (List.nodup_range n)
  intro a b hab
  have hab' : ((start + a : ℕ) : ℤ) = ((start + b : ℕ) : ℤ) := hab
  have : start + a = start + b := by exact_mod_cast hab'
  omega

/-- C3 amended: every variable label and constraint label issued by a Model
is a unique nonnegative integer: the nonnegativity-and-distinctness
invariants are preserved by `add_variables` and by constraint
registration; and for every fresh Model the label of the first variable
created by `add_variables` is exactly 0 (not strictly positive). -/
theorem labels_nonneg_unique :
    (∀ (m : Model) (lower upper : BoundInput) (coords : Option (List Coord))
      (m' : Model) (v : Variable), LabelInv m →
      addVariables m lower upper coords = .ok (m', v) → LabelInv m') ∧
    (∀ (m : Model) (ac : AnonymousConstraint) (m' : Model) (c : Constraint),
      ConLabelInv m → registerConstraint m ac = .ok (m', c) → ConLabelInv m') ∧
    firstVarLabel = 0 := by
  refine ⟨?_, ?_, by decide⟩
  · intro m lower upper coords m' v hinv h
    obtain ⟨-, hl, hn, -, hv, -⟩ := addVariables_ok_spec m lower upper coords m' v h
    constructor
    · intro w hw l hlw
      rw [hv] at hw
      rcases List.mem_append.mp hw with hw' | hw'
      · have := hinv.1 w hw' l hlw
        constructor
        · exact this.1
        · refine lt_of_lt_of_le this.2 ?_
          rw [hn]
          exact_mod_cast Nat.le_add_right _ _
      · have hwv : w = v := by simpa using hw'
        subst hwv
        rw [hl] at hlw
        simp only [List.mem_map, List.mem_range] at hlw
        obtain ⟨i, hi, hEq⟩ := hlw
        subst hEq
        constructor
        · exact_mod_cast Nat.zero_le _
        · rw [hn]
          exact_mod_cast Nat.add_lt_add_left hi _
    · rw [hv]
      simp only [List.map_append, List.map_cons, List.map_nil,
        List.flatten_append, List.flatten_cons, List.flatten_nil, List.append_nil]
      rw [List.nodup_append]
      refine ⟨hinv.2, ?_, ?_⟩
      · rw [hl]; exact range_labels_nodup _ _
      · intro l hlold hlnew
        have hlt : l < (m.nextVarLabel : ℤ) := by
          rcases List.mem_flatten.mp hlold with ⟨labs, hlabs, hmem⟩
          rcases List.mem_map.mp hlabs with ⟨w, hw, hwl⟩
          exact (hinv.1 w hw l (hwl ▸ hmem)).2
        rw [hl] at hlnew
        simp only [List.mem_map, List.mem_range] at hlnew
        obtain ⟨i, -, hEq⟩ := hlnew
        rw [← hEq] at hlt
        have : m.nextVarLabel + i < m.nextVarLabel := by exact_mod_cast hlt
        omega
  · intro m ac m' c hinv h
    obtain ⟨hcl, -, -, -, hn, hc, -, -⟩ := registerConstraint_ok_spec m ac m' c h
    constructor
    · intro d hd l hld
      rw [hc] at hd
      rcases List.mem_append.mp hd with hd' | hd'
      · have := hinv.1 d hd' l hld
        constructor
        · exact this.1
        · refine lt_of_lt_of_le this.2 ?_
          rw [hn]
          exact_mod_cast Nat.le_add_right _ _
      · have hdc : d = c := by simpa using hd'
        subst hdc
        rw [hcl] at hld
        simp only [List.mem_map, List.mem_range] at hld
        obtain ⟨i, hi, hEq⟩ := hld
        subst hEq
        constructor
        · exact_mod_cast Nat.zero_le _
        · rw [hn]
          exact_mod_cast Nat.add_lt_add_left hi _
    · rw [hc]
      simp only [List.map_append, List.map_cons, List.map_nil,
        List.flatten_append, List.flatten_cons, List.flatten_nil, List.append_nil]
      rw [List.nodup_append]
      refine ⟨hinv.2, ?_, ?_⟩
      · rw [hcl]; exact range_labels_nodup _ _
      · intro l hlold hlnew
        have hlt : l < (m.nextConLabel : ℤ) := by
          rcases List.mem_flatten.mp hlold with ⟨labs, hlabs, hmem⟩
          rcases List.mem_map.mp hlabs with ⟨d, hd, hdl⟩
          exact (hinv.1 d hd l (hdl ▸ hmem)).2
        rw [hcl] at hlnew
        simp only [List.mem_map, List.mem_range] at hlnew
        obtain ⟨i, -, hEq⟩ := hlnew
        rw [← hEq] at hlt
        have : m.nextConLabel + i < m.nextConLabel := by exact_mod_cast hlt
        omega

/-- C3 amended witness: the invariant holds after the first default call on
a fresh model, whose sole label is 0. -/
theorem labels_nonneg_unique_witness :
    LabelInv ⟨false, 1, 0, [⟨[], [0], [.negInf], [.posInf]⟩], [], none⟩ :=
  labels_nonneg_unique.1 freshModel (.scalar .negInf) (.scalar .posInf) none
    ⟨false, 1, 0, [⟨[], [0], [.negInf], [.posInf]⟩], [], none⟩
    ⟨[], [0], [.negInf], [.posInf]⟩
    (by constructor <;> simp [LabelInv, freshModel]) rfl

/-- C4: `add_variables` with scalar lower and upper bounds and a non-empty
`coords` argument returns a Variable shaped by the coords, with one
distinct label per coordinate (ten coordinates allocate ten scalar
variables); coords is not ignored. -/
theorem add_variables_scalar_coords_shape (m : Model) (bl bu : Bound)
    (cs : List Coord) (m' : Model) (v : Variable) (hne : cs ≠ [])
    (h : addVariables m (.scalar bl) (.scalar bu) (some cs) = .ok (m', v)) :
    v.shape = cs.map (fun c => c.size) ∧
    v.labels.length = (cs.map (fun c => c.size)).prod ∧
    v.labels.Nodup := by
  obtain ⟨hs, hl, -, -, -, -⟩ := addVariables_ok_spec m (.scalar bl) (.scalar bu)
    (some cs) m' v h
  have hs' : v.shape = cs.map (fun c => c.size) := by
    simpa [requestedShape] using hs
  refine ⟨hs', ?_, ?_⟩
  · rw [hl, hs']
    simp
  · rw [hl]
    exact range_labels_nodup _ _

/-- C4 witness: with a coords index of length 10 and scalar bounds, ten
distinct labels are allocated. -/
theorem add_variables_scalar_coords_shape_witness :
    (⟨[10], [0, 1, 2, 3, 4, 5, 6, 7, 8, 9], List.replicate 10 (.fin 0),
      List.replicate 10 .posInf⟩ : Variable).shape =
        [(⟨some "time", 10⟩ : Coord)].map (fun c => c.size) ∧
    (⟨[10], [0, 1, 2, 3, 4, 5, 6, 7, 8, 9], List.replicate 10 (.fin 0),
      List.replicate 10 .posInf⟩ : Variable).labels.length =
        ([(⟨some "time", 10⟩ : Coord)].map (fun c => c.size)).prod ∧
    (⟨[10], [0, 1, 2, 3, 4, 5, 6, 7, 8, 9], List.replicate 10 (.fin 0),
      List.replicate 10 .posInf⟩ : Variable).labels.Nodup :=
  add_variables_scalar_coords_shape freshModel (.fin 0) .posInf
    [⟨some "time", 10⟩]
    ⟨false, 10, 0,
      [⟨[10], [0, 1, 2, 3, 4, 5, 6, 7, 8, 9], List.replicate 10 (.fin 0),
        List.replicate 10 .posInf⟩], [], none⟩
    ⟨[10], [0, 1, 2, 3, 4, 5, 6, 7, 8, 9], List.replicate 10 (.fin 0),
      List.replicate 10 .posInf⟩
    (by simp) rfl

/-- C7: `add_constraints` applied to the AnonymousConstraint built by
comparing `lhs` with sign `s` against `rhs`, and `add_constraints` applied
to the separate triple `(lhs, s, rhs)`, produce exactly the same result:
both call shapes normalize to the same AnonymousConstraint before labels
are assigned, so the registered Constraints have identical lhs, sign and
rhs. -/
theorem add_constraints_anon_eq_triple (m : Model) (lhs : LinearExpression)
    (s : Sign) (r : CoefArr) :
    addConstraintsAnon m (compareE lhs s r) = addConstraintsTriple m lhs s r := rfl

/-- C10: `add_constraints` with a rule function and non-empty coords
succeeds whenever the labels delivered by the rule belong to the model,
even when the rule returns AnonymousScalarConstraints with different
comparison signs at different coordinates, and the resulting Constraint
records the sign delivered at each outer coordinate. -/
theorem add_constraints_rule_records_signs {ι : Type} [Inhabited ι] (m : Model)
    (f : ι → AnonymousScalarConstraint) (coords : List ι)
    (hne : coords ≠ [])
    (hval : validLabels m (ruleToAnon f coords) = true) :
    ∃ m' con, addConstraintsRule m f coords = .ok (m', con) ∧
      con.sign = coords.map (fun pt => (f pt).sign) := by
  have hsign : (List.range (ruleToAnon f coords).size).map
      (fun p => (ruleToAnon f coords).sign p) = coords.map (fun pt => (f pt).sign) := by
    apply List.ext_getElem
    · simp [ruleToAnon]
    · intro i h1 h2
      have hi : i < coords.length := by simpa [ruleToAnon] using h1
      simp only [ruleToAnon, List.getElem_map, List.getElem_range]
      rw [List.getD_eq_getElem coords default hi]
  unfold addConstraintsRule registerConstraint
  rw [if_pos hval]
  exact ⟨_, _, rfl, hsign⟩

/-- C10 witness: a rule delivering `≥` at odd coordinates and `=` at even
coordinates succeeds on a model holding two variables, and the constraint
records the mixed signs. -/
theorem add_constraints_rule_records_signs_witness :
    ∃ m' con, addConstraintsRule (⟨false, 2, 0, [], [], none⟩ : Model)
        (fun i : ℕ => if i % 2 = 1
          then (⟨[((0 : ℤ), (i : ℚ))], .GE, (i : ℚ)⟩ : AnonymousScalarConstraint)
          else ⟨[(1, (i : ℚ))], .EQ, 0⟩) [0, 1, 2, 3] = .ok (m', con) ∧
      con.sign = [0, 1, 2, 3].map (fun pt =>
        ((fun i : ℕ => if i % 2 = 1
          then (⟨[((0 : ℤ), (i : ℚ))], .GE, (i : ℚ)⟩ : AnonymousScalarConstraint)
          else ⟨[(1, (i : ℚ))], .EQ, 0⟩) pt).sign) :=
  add_constraints_rule_records_signs ⟨false, 2, 0, [], [], none⟩
    (fun i : ℕ => if i % 2 = 1
      then (⟨[((0 : ℤ), (i : ℚ))], .GE, (i : ℚ)⟩ : AnonymousScalarConstraint)
      else ⟨[(1, (i : ℚ))], .EQ, 0⟩) [0, 1, 2, 3] (by simp) (by decide)

/-- Helper: shifting preserves the term count of a rectangular non-empty
expression. -/
theorem termCount_shiftE (e : LinearExpression) (k : ℤ) (hrect : Rect e)
    (hpos : 0 < e.size) : termCount (shiftE e k) = termCount e := by
  show (if 0 ≤ ((0 : ℕ) : ℤ) - k ∧ ((0 : ℕ) : ℤ) - k < (e.size : ℤ)
        then e.terms (((0 : ℕ) : ℤ) - k).toNat
        else sentinelRow (termCount e)).length = termCount e
  split
  · next hcond => exact hrect _ (by omega)
  · simp [sentinelRow]

/-- C5 amended: shifting an expression along its dimension by `k` and then by
`-k` keeps the outer shape, restores the expression pointwise at every
position `p` with `p + k` still inside the dimension, and leaves every
other position as the sentinel row (label `-1`, coefficient `0`, constant
`0`): the entries pushed out of range by the first shift are lost. -/
theorem shift_roundtrip (e : LinearExpression) (k : ℤ) (p : ℕ)
    (hrect : Rect e) (hp : p < e.size) :
    (shiftE (shiftE e k) (-k)).size = e.size ∧
    ((0 ≤ (p : ℤ) + k ∧ (p : ℤ) + k < (e.size : ℤ)) →
      (shiftE (shiftE e k) (-k)).terms p = e.terms p ∧
      (shiftE (shiftE e k) (-k)).const p = e.const p) ∧
    (¬ (0 ≤ (p : ℤ) + k ∧ (p : ℤ) + k < (e.size : ℤ)) →
      (shiftE (shiftE e k) (-k)).terms p = sentinelRow (termCount e) ∧
      (shiftE (shiftE e k) (-k)).const p = 0) := by
  refine ⟨rfl, ?_, ?_⟩
  · rintro ⟨h1, h2⟩
    constructor
    · show (if 0 ≤ (p : ℤ) - -k ∧ (p : ℤ) - -k < (e.size : ℤ)
            then (shiftE e k).terms ((p : ℤ) - -k).toNat
            else sentinelRow (termCount (shiftE e k))) = e.terms p
      rw [if_pos (by constructor <;> omega)]
      show (if 0 ≤ ((((p : ℤ) - -k).toNat : ℕ) : ℤ) - k ∧
              ((((p : ℤ) - -k).toNat : ℕ) : ℤ) - k < (e.size : ℤ)
            then e.terms (((((p : ℤ) - -k).toNat : ℕ) : ℤ) - k).toNat
            else sentinelRow (termCount e)) = e.terms p
      rw [if_pos (by constructor <;> omega)]
      congr 1
      omega
    · show (if 0 ≤ (p : ℤ) - -k ∧ (p : ℤ) - -k < (e.size : ℤ)
            then (shiftE e k).const ((p : ℤ) - -k).toNat
            else 0) = e.const p
      rw [if_pos (by constructor <;> omega)]
      show (if 0 ≤ ((((p : ℤ) - -k).toNat : ℕ) : ℤ) - k ∧
              ((((p : ℤ) - -k).toNat : ℕ) : ℤ) - k < (e.size : ℤ)
            then e.const (((((p : ℤ) - -k).toNat : ℕ) : ℤ) - k).toNat
            else 0) = e.const p
      rw [if_pos (by constructor <;> omega)]
      congr 1
      omega
  · intro hout
    constructor
    · show (if 0 ≤ (p : ℤ) - -k ∧ (p : ℤ) - -k < (e.size : ℤ)
            then (shiftE e k).terms ((p : ℤ) - -k).toNat
            else sentinelRow (termCount (shiftE e k))) = sentinelRow (termCount e)
      rw [if_neg (by omega)]
      rw [termCount_shiftE e k hrect (by omega)]
    · show (if 0 ≤ (p : ℤ) - -k ∧ (p : ℤ) - -k < (e.size : ℤ)
            then (shiftE e k).const ((p : ℤ) - -k).toNat
            else 0) = 0
      rw [if_neg (by omega)]

/-- C5 amended witness: the concrete expression, shifted by 1 and back, is
restored at position 0. -/
theorem shift_roundtrip_witness :
    (shiftE (shiftE e2shift 1) (-1)).size = e2shift.size ∧
    ((0 ≤ ((0 : ℕ) : ℤ) + 1 ∧ ((0 : ℕ) : ℤ) + 1 < (e2shift.size : ℤ)) →
      (shiftE (shiftE e2shift 1) (-1)).terms 0 = e2shift.terms 0 ∧
      (shiftE (shiftE e2shift 1) (-1)).const 0 = e2shift.const 0) ∧
    (¬ (0 ≤ ((0 : ℕ) : ℤ) + 1 ∧ ((0 : ℕ) : ℤ) + 1 < (e2shift.size : ℤ)) →
      (shiftE (shiftE e2shift 1) (-1)).terms 0 = sentinelRow (termCount e2shift) ∧
      (shiftE (shiftE e2shift 1) (-1)).const 0 = 0) :=
  shift_roundtrip e2shift 1 0 (fun p hp => rfl) (by decide)

/-- C5 counterexample: shifting the two-position expression `e2shift` by 1
and then by -1 does not restore it pointwise: position 1, whose entry was
pushed out of range by the first shift, ends as the sentinel row instead of
its original term. -/
theorem shift_roundtrip_counterexample :
    (shiftE (shiftE e2shift 1) (-1)).terms 1 ≠ e2shift.terms 1 := by decide

/-- Helper: a left fold of `max` is at least its initial value. -/
theorem foldl_max_init_le (l : List ℕ) (init : ℕ) : init ≤ l.foldl max init := by
  induction l generalizing init with
  | nil => exact le_refl _
  | cons b t ih => exact le_trans (le_max_left init b) (ih _)

/-- Helper: a left fold of `max` bounds every member of the list. -/
theorem mem_le_foldl_max (l : List ℕ) (a init : ℕ) (ha : a ∈ l) :
    a ≤ l.foldl max init := by
  induction l generalizing init with
  | nil => cases ha
  | cons b t ih =>
    rcases List.mem_cons.mp ha with h | h
    · subst h
      exact le_trans (le_max_right init a) (foldl_max_init_le t _)
    · exact ih _ h

/-- Helper: the broadcast reads of a pair of outer size at most one do not
depend on the position. -/
theorem pair_read_const (pr : CoefArr × Variable) (hpr : pairSize pr ≤ 1) (p : ℕ) :
    readLab pr.2 p = readLab pr.2 0 ∧ readCo pr.1 p = readCo pr.1 0 := by
  have h1 : pr.1.size ≤ 1 := le_trans (le_max_left _ _) hpr
  have h2 : pr.2.labels.length ≤ 1 := le_trans (le_max_right _ _) hpr
  constructor
  · unfold readLab
    simp only [if_pos h2]
  · unfold readCo
    simp only [if_pos h1]

/-- Helper: the broadcast term row of a coefficient-variable product at any
position is the pair's broadcast entry at that position. -/
theorem readT_cvMul (c : CoefArr) (v : Variable) (p : ℕ) :
    readT (cvMul c v) p = [(readLab v p, readCo c p)] := by
  unfold readT cvMul
  simp only
  split
  · next hle =>
    obtain ⟨hl, hc⟩ := pair_read_const (c, v) hle p
    rw [hl, hc]
  · rfl

/-- Helper: the constant of a coefficient-variable product reads zero
everywhere. -/
theorem readC_cvMul (c : CoefArr) (v : Variable) (p : ℕ) :
    readC (cvMul c v) p = 0 := by
  unfold readC cvMul
  split <;> rfl

/-- Helper: the stacked row of pairs that are all scalar does not depend on
the position. -/
theorem mapRow_const_of_small (pairs : List (CoefArr × Variable))
    (hall : ∀ pr ∈ pairs, pairSize pr ≤ 1) (p : ℕ) :
    mapRow pairs p = mapRow pairs 0 := by
  unfold mapRow
  induction pairs with
  | nil => rfl
  | cons pr t ih =>
    simp only [List.map_cons]
    obtain ⟨hl, hc⟩ := pair_read_const pr (hall pr (List.mem_cons_self pr t)) p
    rw [hl, hc, ih (fun q hq => hall q (List.mem_cons_of_mem pr hq))]

/-- Helper: invariant of the iterative fold of `c1*v1 + c2*v2 + …`: after
processing `done`, the accumulator's outer size is the broadcast of the
processed pair sizes, its term rows are the stacked rows of `done`, and its
constants are zero. -/
theorem iter_fold_spec (rest : List (CoefArr × Variable)) (acc : LinearExpression)
    (done : List (CoefArr × Variable))
    (hsize : acc.size = (done.map pairSize).foldl max 0)
    (hterms : ∀ p, acc.terms p = mapRow done p)
    (hconst : ∀ p, acc.const p = 0) :
    (rest.foldl (fun a pr => addE a (cvMul pr.1 pr.2)) acc).size =
      ((done ++ rest).map pairSize).foldl max 0 ∧
    (∀ p, (rest.foldl (fun a pr => addE a (cvMul pr.1 pr.2)) acc).terms p =
      mapRow (done ++ rest) p) ∧
    (∀ p, (rest.foldl (fun a pr => addE a (cvMul pr.1 pr.2)) acc).const p = 0) := by
  induction rest generalizing acc done with
  | nil => simpa using ⟨hsize, hterms, hconst⟩
  | cons pr rest ih =>
    have hreadT : ∀ p, readT acc p = mapRow done p := by
      intro p
      unfold readT
      split
      · next hle =>
        rw [hterms 0]
        refine (mapRow_const_of_small done ?_ p).symm
        intro q hq
        refine le_trans (mem_le_foldl_max _ _ 0 (List.mem_map_of_mem pairSize hq)) ?_
        rw [← hsize]
        exact hle
      · exact hterms p
    have hreadC : ∀ p, readC acc p = 0 := by
      intro p
      unfold readC
      split
      · exact hconst 0
      · exact hconst p
    have hstep := ih (addE acc (cvMul pr.1 pr.2)) (done ++ [pr]) ?_ ?_ ?_
    · simpa using hstep
    · show max acc.size (max pr.1.size pr.2.labels.length) = _
      rw [hsize]
      simp [List.foldl_append, pairSize]
    · intro p
      show readT acc p ++ readT (cvMul pr.1 pr.2) p = _
      rw [hreadT p, readT_cvMul]
      unfold mapRow
      simp
    · intro p
      show readC acc p + readC (cvMul pr.1 pr.2) p = 0
      rw [hreadC p, readC_cvMul]
      norm_num

/-- C6: `Model.linexpr((c1,v1), …, (ck,vk))`, the one-pass stacked builder,
produces exactly the same LinearExpression over the broadcast outer shape
as the iterative arithmetic `c1*v1 + c2*v2 + … + ck*vk`, and it has exactly
`T = k` terms at every outer position. -/
theorem linexpr_pairs_iterative (p0 : CoefArr × Variable)
    (ps : List (CoefArr × Variable)) :
    iterLinexpr (p0 :: ps) = linexprPairs (p0 :: ps) ∧
    (∀ q, ((linexprPairs (p0 :: ps)).terms q).length = (p0 :: ps).length) := by
  constructor
  · have hstep := iter_fold_spec ps (cvMul p0.1 p0.2) [p0]
      (by simp [cvMul, pairSize]) (fun p => rfl)
      (fun p => rfl)
    ext1
    · rw [show (iterLinexpr (p0 :: ps)).size =
          (ps.foldl (fun a pr => addE a (cvMul pr.1 pr.2)) (cvMul p0.1 p0.2)).size
          from rfl, hstep.1]
      simp [linexprPairs, bcastSize]
    · funext p
      rw [show (iterLinexpr (p0 :: ps)).terms =
          (ps.foldl (fun a pr => addE a (cvMul pr.1 pr.2)) (cvMul p0.1 p0.2)).terms
          from rfl, hstep.2.1 p]
      simp [linexprPairs]
    · funext p
      rw [show (iterLinexpr (p0 :: ps)).const =
          (ps.foldl (fun a pr => addE a (cvMul pr.1 pr.2)) (cvMul p0.1 p0.2)).const
          from rfl, hstep.2.2 p]
      simp [linexprPairs]
  · intro q
    simp [linexprPairs, mapRow]

/-- Helper: the S1 matrix view, evaluated with the rational arithmetic left
unreduced. -/
theorem s1mv_eval_raw :
    s1mv = ⟨[0, 1], [.fin 0, .fin 0], [.posInf, .posInf], [0, 1],
      [10 - (0 + 0), 3 - (0 + 0)], [.GE, .GE],
      [(0, 0, 3), (0, 1, 7), (1, 0, 5), (1, 1, 2)], [1 + 0, 2 + 0]⟩ := rfl

/-- Helper: the S1 matrix view evaluates to the explicit bundle. -/
theorem s1mv_eval :
    s1mv = ⟨[0, 1], [.fin 0, .fin 0], [.posInf, .posInf], [0, 1], [10, 3],
      [.GE, .GE], [(0, 0, 3), (0, 1, 7), (1, 0, 5), (1, 1, 2)], [1, 2]⟩ := by
  rw [s1mv_eval_raw]
  norm_num

/-- C1 counterexample: the claimed optimum `x = 0`, `y = 10/7` is not even
feasible for the S1 matrix view: it violates the second constraint, since
`5*0 + 2*(10/7) = 20/7 < 3`. -/
theorem s1_claimed_optimum_infeasible : ¬ satisfies s1mv s1opt := by
  intro h
  rw [s1mv_eval] at h
  have h2 := h.2 (1, .GE, 3) (by simp)
  rw [signOkB] at h2
  norm_num [rowVal, s1opt] at h2

/-- C1 amended: the basic LP of `create-a-model.ipynb` — two scalar
variables with lower bound 0, constraints `3x + 7y ≥ 10` and
`5x + 2y ≥ 3`, objective `x + 2y` — has matrix view A = [[3,7],[5,2]],
rhs = [10,3], signs = [GE,GE], c = [1,2]; the assignment `x = 1/29`,
`y = 41/29` is feasible with objective value 83/29, and every feasible
assignment has objective value at least 83/29, so solving yields the
optimum `x = 1/29`, `y = 41/29` with objective value 83/29 (not `x = 0`,
`y = 10/7` with value 20/7 as claimed). -/
theorem s1_matrix_view_and_optimum :
    s1Result = Except.ok s1mv ∧
    denseA s1mv = [[3, 7], [5, 2]] ∧
    s1mv.rhs = [10, 3] ∧
    s1mv.sign = [.GE, .GE] ∧
    s1mv.c = [1, 2] ∧
    satisfies s1mv s1optTrue ∧
    objVal s1mv s1optTrue = 83 / 29 ∧
    (∀ z : ℤ → ℚ, satisfies s1mv z → 83 / 29 ≤ objVal s1mv z) := by
  refine ⟨rfl, ?_, ?_, ?_, ?_, ?_, ?_, ?_⟩
  · rw [s1mv_eval]
    simp [denseA]
  · simp [s1mv_eval]
  · simp [s1mv_eval]
  · simp [s1mv_eval]
  · rw [s1mv_eval]
    constructor
    · intro pr hpr
      simp only [List.zip_cons_cons, List.zip_nil_left, List.mem_cons,
        List.not_mem_nil, or_false] at hpr
      rcases hpr with h | h <;> subst h <;>
        norm_num [loSatB, upSatB, s1optTrue]
    · intro pr hpr
      simp only [List.zip_cons_cons, List.zip_nil_left, List.mem_cons,
        List.not_mem_nil, or_false] at hpr
      rcases hpr with h | h <;> subst h <;>
        norm_num [signOkB, rowVal, s1optTrue]
  · rw [s1mv_eval]
    norm_num [objVal, s1optTrue]
  · intro z hz
    rw [s1mv_eval] at hz
    obtain ⟨hb, hcon⟩ := hz
    have hr1 : (10 : ℚ) ≤ 3 * z 0 + 7 * z 1 := by
      simpa [signOkB, rowVal] using hcon (0, .GE, 10) (by simp)
    have hr2 : (3 : ℚ) ≤ 5 * z 0 + 2 * z 1 := by
      simpa [signOkB, rowVal] using hcon (1, .GE, 3) (by simp)
    have hgoal : objVal s1mv z = 1 * z 0 + (2 * z 1 + 0) := by
      rw [s1mv_eval]
      rfl
    rw [hgoal]
    linarith

/-- C1 amended witness: the optimality bound applied to the feasible
assignment x = 1, y = 1. -/
theorem s1_matrix_view_and_optimum_witness :
    (83 : ℚ) / 29 ≤ objVal s1mv (fun _ => 1) := by
  refine s1_matrix_view_and_optimum.2.2.2.2.2.2.2 (fun _ => 1) ?_
  rw [s1mv_eval]
  constructor
  · intro pr hpr
    simp only [List.zip_cons_cons, List.zip_nil_left, List.mem_cons,
      List.not_mem_nil, or_false] at hpr
    rcases hpr with h | h <;> subst h <;> norm_num [loSatB, upSatB]
  · intro pr hpr
    simp only [List.zip_cons_cons, List.zip_nil_left, List.mem_cons,
      List.not_mem_nil, or_false] at hpr
    rcases hpr with h | h <;> subst h <;> norm_num [signOkB, rowVal]
